import Mathlib

/-! Transaction broadcast of the lens chain client.

A shallow embedding of `client/broadcast.go`: the Tendermint error classifier
`CheckTendermintError`, the submitter `BroadcastTxSync`, the mempool membership
test `TxInMempool`, the result builder `mkTxResult` and the top-level flow
`BroadcastTx`.

Go strings are modelled as Lean strings (sequences of runes), byte slices as
lists of `Fin 256`.  What the file imports from outside the repository and
cannot be written down (the Unicode case tables, the content hash, the node
behind the RPC client, the context, the transaction decoder, the clock) is a
parameter of the model; the library functions the flow calls (`strings`,
`encoding/hex`, `fmt`, the SDK response constructors, `retry.Do`) are modelled
by what they compute.
-/

namespace Lens

/-! ## Data model -/

/-- A Go byte slice. -/
abbrev Bytes := List (Fin 256)

/-- Parameters standing for library data the code depends on and the
repository does not contain: the case mapping `unicode.ToLower`, the outcome of
the `unicode.SimpleFold` orbit walk that `strings.EqualFold` makes when a rune
is not ASCII, and the content hash `tmhash.Sum` behind `tmtypes.Tx.Hash`.
On ASCII runes `unicode.ToLower` maps `A`-`Z` to `a`-`z` and fixes the rest. -/
structure Platform where
  unicodeToLower : Char → Char
  unicodeToLower_ascii : ∀ c : Char, c.toNat < 128 → unicodeToLower c = c.toLower
  foldWalk : Char → Char → Bool
  Sum : Bytes → Bytes

/-- A platform whose case mapping changes ASCII letters only and whose digest
is the identity: a stand-in used to evaluate the model on examples. -/
def asciiPlatform : Platform where
  unicodeToLower := Char.toLower
  unicodeToLower_ascii := fun _ _ => rfl
  foldWalk := fun _ _ => false
  Sum := fun b => b

/-- Where a Go `error` value comes from. -/
inductive ErrKind
  | transport
  | cancelled
  | hexDecode
  | attemptsFailed
  | txDecode
  | notIntoAny
  deriving DecidableEq, Repr

/-- A non-nil Go `error`: its origin and the text `Error()` returns. -/
structure GoError where
  kind : ErrKind
  msg : String
  deriving DecidableEq, Repr

/-- The method `Error()` of an error value. -/
def GoError.Error (e : GoError) : String := e.msg

/-- The fields of `sdk.TxResponse` the client reads or writes; `Tx` is the
packed transaction (`*codectypes.Any`), given by its bytes. -/
structure TxResponse where
  Height : Int := 0
  TxHash : String := ""
  Codespace : String := ""
  Code : Nat := 0
  Data : String := ""
  RawLog : String := ""
  Info : String := ""
  GasWanted : Int := 0
  GasUsed : Int := 0
  Tx : Option Bytes := none
  Timestamp : String := ""
  deriving DecidableEq, Repr

/-- A registered SDK error (`sdkerrors.Register`): codespace and code. -/
structure SdkError where
  codespace : String
  code : Nat
  deriving DecidableEq, Repr

/-- The method `ABCICode()` of a registered error. -/
def SdkError.ABCICode (e : SdkError) : Nat := e.code

/-- The method `Codespace()` of a registered error. -/
def SdkError.Codespace (e : SdkError) : String := e.codespace

/-- The constant `sdkerrors.RootCodespace`. -/
def RootCodespace : String := "sdk"

/-- The registered error `sdkerrors.ErrTxInMempoolCache`. -/
def ErrTxInMempoolCache : SdkError := ⟨RootCodespace, 19⟩

/-- The registered error `sdkerrors.ErrMempoolIsFull`. -/
def ErrMempoolIsFull : SdkError := ⟨RootCodespace, 20⟩

/-- The registered error `sdkerrors.ErrTxTooLarge`. -/
def ErrTxTooLarge : SdkError := ⟨RootCodespace, 21⟩

/-- The text of `mempool.ErrTxInCache`. -/
def ErrTxInCache : GoError := ⟨ErrKind.transport, "tx already exists in cache"⟩

/-! ## Library functions on strings and bytes -/

/-- The function `strings.ToLower`: every rune is mapped by `unicode.ToLower`
(on an all-ASCII string the fast path computes the same). -/
def strings.ToLower (P : Platform) (s : String) : String :=
  ⟨s.data.map P.unicodeToLower⟩

/-- Substring search on rune sequences: does `sub` start at some position of
the first argument. -/
def containsRunes : List Char → List Char → Bool
  | [], sub => sub.isEmpty
  | c :: s, sub => sub.isPrefixOf (c :: s) || containsRunes s sub

/-- The function `strings.Contains`. -/
def strings.Contains (s substr : String) : Bool :=
  containsRunes s.data substr.data

/-- One upper-case hexadecimal digit. -/
def hexDigitUpper (n : Nat) : Char :=
  if n < 10 then Char.ofNat (48 + n) else Char.ofNat (55 + n)

/-- The two upper-case hexadecimal digits of a byte. -/
def hexByteUpper (b : Fin 256) : List Char :=
  [hexDigitUpper (b.val / 16), hexDigitUpper (b.val % 16)]

/-- The call `fmt.Sprintf("%X", bz)` on a byte slice, also the method
`String()` of `HexBytes`. -/
def sprintfX (bz : Bytes) : String :=
  ⟨bz.flatMap hexByteUpper⟩

/-- The method `Hash()` of `tmtypes.Tx`. -/
def Tx.Hash (P : Platform) (tx : Bytes) : Bytes := P.Sum tx

/-! ## The error classifier -/

/-- The function `CheckTendermintError`. -/
def CheckTendermintError (P : Platform) (err : Option GoError) (tx : Bytes) :
    Option TxResponse :=
  match err with
  | none => none
  | some e =>
    let errStr := strings.ToLower P e.Error
    let txHash := sprintfX (Tx.Hash P tx)
    if strings.Contains errStr (strings.ToLower P ErrTxInCache.Error) then
      some { Code := ErrTxInMempoolCache.ABCICode,
             Codespace := ErrTxInMempoolCache.Codespace,
             TxHash := txHash }
    else if strings.Contains errStr "mempool is full" then
      some { Code := ErrMempoolIsFull.ABCICode,
             Codespace := ErrMempoolIsFull.Codespace,
             TxHash := txHash }
    else if strings.Contains errStr "tx too large" then
      some { Code := ErrTxTooLarge.ABCICode,
             Codespace := ErrTxTooLarge.Codespace,
             TxHash := txHash }
    else
      none

/-- A rejection rule as the specification describes it: a phrase with its
fixed code and codespace. -/
structure RejectionRule where
  phrase : String
  code : Nat
  codespace : String
  deriving DecidableEq, Repr

/-- The rule table in the order the specification gives: duplicate in cache,
pool full, transaction too large. -/
def rejectionRules : List RejectionRule :=
  [⟨"tx already exists in cache", 19, "sdk"⟩,
   ⟨"mempool is full", 20, "sdk"⟩,
   ⟨"tx too large", 21, "sdk"⟩]

/-- The classifier written after the specification: the first rule of the
table whose phrase occurs in the lower-cased message gives the result. -/
def classifyByTable (P : Platform) (rules : List RejectionRule)
    (err : Option GoError) (tx : Bytes) : Option TxResponse :=
  match err with
  | none => none
  | some e =>
    match rules.find? (fun r => strings.Contains (strings.ToLower P e.Error) r.phrase) with
    | none => none
    | some r => some { Code := r.code, Codespace := r.codespace,
                       TxHash := sprintfX (Tx.Hash P tx) }

/-- A message contains a phrase in some letter case: a stretch of the message
lower-cases to the phrase. -/
def occursInAnyCase (P : Platform) (phrase msg : String) : Prop :=
  ∃ w : List Char, w <:+: msg.data ∧ w.map P.unicodeToLower = phrase.data

/-! ## Case-insensitive comparison and hexadecimal decoding -/

/-- One step of `strings.EqualFold`: are the runes `sr` and `tr` equal under
simple case folding.  Equal runes match; otherwise the runes are ordered, two
ASCII runes match when the smaller is an upper-case letter and the larger its
lower-case form, and when the larger is not ASCII the `unicode.SimpleFold`
orbit walk decides. -/
def runeFoldEq (P : Platform) (sr tr : Char) : Bool :=
  if tr = sr then true
  else
    let lo := if tr.toNat < sr.toNat then tr else sr
    let hi := if tr.toNat < sr.toNat then sr else tr
    if hi.toNat < 128 then
      decide (65 ≤ lo.toNat ∧ lo.toNat ≤ 90 ∧ hi.toNat = lo.toNat + 32)
    else
      P.foldWalk lo hi

/-- The rune loop of `strings.EqualFold`. -/
def equalFoldRunes (P : Platform) : List Char → List Char → Bool
  | [], [] => true
  | sr :: s, tr :: t => runeFoldEq P sr tr && equalFoldRunes P s t
  | _, _ => false

/-- The function `strings.EqualFold`. -/
def strings.EqualFold (P : Platform) (s t : String) : Bool :=
  equalFoldRunes P s.data t.data

/-- The helper `fromHexChar` of `encoding/hex`. -/
def fromHexChar (c : Char) : Option Nat :=
  let n := c.toNat
  if 48 ≤ n ∧ n ≤ 57 then some (n - 48)
  else if 97 ≤ n ∧ n ≤ 102 then some (n - 97 + 10)
  else if 65 ≤ n ∧ n ≤ 70 then some (n - 65 + 10)
  else none

/-- The decoding loop of `hex.DecodeString`: pairs of hexadecimal digits give
bytes; an odd length or a rune that is no hexadecimal digit fails. -/
def decodeHexRunes : List Char → Option Bytes
  | [] => some []
  | [_] => none
  | a :: b :: rest =>
    match fromHexChar a, fromHexChar b, decodeHexRunes rest with
    | some x, some y, some bs => some (Fin.ofNat (x * 16 + y) :: bs)
    | _, _, _ => none

/-- The function `hex.DecodeString`; its two errors (odd length, invalid byte)
are not told apart. -/
def hex.DecodeString (s : String) : Except GoError Bytes :=
  match decodeHexRunes s.data with
  | some bz => Except.ok bz
  | none => Except.error ⟨ErrKind.hexDecode, "encoding/hex: invalid hex string"⟩

/-- Re-casing the ASCII letters of a string to upper case. -/
def asciiUpper (s : String) : String := ⟨s.data.map Char.toUpper⟩

/-- Re-casing the ASCII letters of a string to lower case. -/
def asciiLower (s : String) : String := ⟨s.data.map Char.toLower⟩

/-! ## The node, the context and the codec -/

/-- The fields of `ctypes.ResultBroadcastTx`. -/
structure ResultBroadcastTx where
  Code : Nat := 0
  Data : Bytes := []
  Log : String := ""
  Codespace : String := ""
  Hash : Bytes := []
  deriving DecidableEq, Repr

/-- The fields of `abci.ResponseDeliverTx` copied into a response. -/
structure ResponseDeliverTx where
  Code : Nat := 0
  Data : Bytes := []
  Log : String := ""
  Info : String := ""
  GasWanted : Int := 0
  GasUsed : Int := 0
  Codespace : String := ""
  deriving DecidableEq, Repr

/-- The fields of `ctypes.ResultTx`: the finalized record of a transaction. -/
structure ResultTx where
  Hash : Bytes := []
  Height : Int := 0
  TxResult : ResponseDeliverTx := {}
  Tx : Bytes := []
  deriving DecidableEq, Repr

/-- The listing of `ctypes.ResultUnconfirmedTxs`: the pending transactions. -/
structure ResultUnconfirmedTxs where
  Txs : List Bytes := []
  deriving DecidableEq, Repr

/-- The node behind `cc.RPCClient`.  Every method returns a Go pair (result
pointer, error).  The listing and the lookup may answer differently from call
to call, so they take the number of earlier calls of the same method. -/
structure RPCClient where
  BroadcastTxSync : Bytes → Option ResultBroadcastTx × Option GoError
  UnconfirmedTxs : Nat → Nat → Option ResultUnconfirmedTxs × Option GoError
  Tx : Nat → Bytes → Bool → Option ResultTx × Option GoError

/-- A decoded transaction (`sdk.Tx`).  `AsAny` is `none` when the dynamic type
does not implement `intoAny`, else the pointer its method `AsAny()` returns. -/
structure SdkTx where
  AsAny : Option (Option Bytes)
  deriving DecidableEq, Repr

/-- The codec of the client: `cc.Codec.TxConfig.TxDecoder()`. -/
structure Codec where
  TxDecoder : Bytes → Option SdkTx × Option GoError

/-- The receiver `ChainClient`. -/
structure ChainClient where
  RPCClient : RPCClient
  Codec : Codec

/-- The `context.Context` of a call.  `done k` tells whether the context is
done once the flow has passed `k` suspension points: the `select` reached then
takes the case `<-ctx.Done()`, and a test of `ctx.Err()` made then finds the
error `Err`. -/
structure Context where
  done : Nat → Bool
  Err : GoError

/-- The rest of the environment: the formatted `time.Now()`. -/
structure Runtime where
  now : String

/-- The constant `retry.DefaultAttempts` of the retry package: the number of
attempts `retry.Do` makes when no `retry.Attempts` option is given. -/
def retry.DefaultAttempts : Nat := 10

/-- The RPC calls and suspension points of a run so far. -/
structure Calls where
  listings : Nat := 0
  lookups : Nat := 0
  selects : Nat := 0
  deriving DecidableEq, Repr

/-- How a run of a function ends: it returns, it panics on a nil pointer, or
the fuel of the model is used up while it is still looping. -/
inductive Outcome (α : Type)
  | ret (a : α)
  | panicked
  | outOfFuel
  deriving DecidableEq, Repr

/-! ## The client functions -/

/-- The function `sdk.NewResponseFormatBroadcastTx`. -/
def NewResponseFormatBroadcastTx (res : Option ResultBroadcastTx) : Option TxResponse :=
  match res with
  | none => none
  | some r => some { Code := r.Code, Codespace := r.Codespace, Data := sprintfX r.Data,
                     RawLog := r.Log, TxHash := sprintfX r.Hash }

/-- The function `sdk.NewResponseResultTx`. -/
def NewResponseResultTx (res : Option ResultTx) (anyTx : Option Bytes) (timestamp : String) :
    Option TxResponse :=
  match res with
  | none => none
  | some r => some { TxHash := sprintfX r.Hash, Height := r.Height,
                     Codespace := r.TxResult.Codespace, Code := r.TxResult.Code,
                     Data := sprintfX r.TxResult.Data, RawLog := r.TxResult.Log,
                     Info := r.TxResult.Info, GasWanted := r.TxResult.GasWanted,
                     GasUsed := r.TxResult.GasUsed, Tx := anyTx, Timestamp := timestamp }

/-- The method `ChainClient.BroadcastTxSync`. -/
def ChainClient.BroadcastTxSync (P : Platform) (cc : ChainClient) (tx : Bytes) :
    Option TxResponse × Option GoError :=
  let out := cc.RPCClient.BroadcastTxSync tx
  match CheckTendermintError P out.2 tx with
  | some errRes => (some errRes, none)
  | none => (NewResponseFormatBroadcastTx out.1, out.2)

/-- The loop of `TxInMempool` over the listed transactions. -/
def txsLoop (P : Platform) (txHash : String) : List Bytes → Bool
  | [] => false
  | txbz :: rest =>
    if strings.EqualFold P txHash (sprintfX (Tx.Hash P txbz)) then true
    else txsLoop P txHash rest

/-- The method `ChainClient.TxInMempool`; `i` is the number of listings
requested before. -/
def ChainClient.TxInMempool (P : Platform) (cc : ChainClient) (i : Nat) (txHash : String) :
    Outcome Bool :=
  let limit := 1000
  match cc.RPCClient.UnconfirmedTxs i limit with
  | (_, some _) => Outcome.ret false
  | (none, none) => Outcome.panicked
  | (some res, none) => Outcome.ret (txsLoop P txHash res.Txs)

/-- The loop labelled `mempool` of `BroadcastTx`.  The result is `true` when
the loop is left by `break mempool` and `false` when the function returns in
the case `<-ctx.Done()`. -/
def mempoolLoop (P : Platform) (cc : ChainClient) (ctx : Context) (txHash : String) :
    Nat → Calls → Outcome (Bool × Calls)
  | 0, _ => Outcome.outOfFuel
  | fuel + 1, c =>
    if ctx.done c.selects then
      Outcome.ret (false, { c with selects := c.selects + 1 })
    else
      match cc.TxInMempool P c.listings txHash with
      | Outcome.ret true =>
        mempoolLoop P cc ctx txHash fuel
          { c with selects := c.selects + 1, listings := c.listings + 1 }
      | Outcome.ret false =>
        Outcome.ret (true, { c with selects := c.selects + 1, listings := c.listings + 1 })
      | Outcome.panicked => Outcome.panicked
      | Outcome.outOfFuel => Outcome.outOfFuel

/-- The text of a `retry.Error`, the log of the failed attempts. -/
def retryErrorText (log : List GoError) : String :=
  "All attempts fail:\n" ++
    "\n".intercalate (log.enum.map fun il => "#" ++ toString (il.1 + 1) ++ ": " ++ il.2.Error)

/-- The error `retry.Do` returns when every attempt failed. -/
def retryError (log : List GoError) : GoError :=
  ⟨ErrKind.attemptsFailed, retryErrorText log⟩

/-- The attempt loop of `retry.Do` with the closure of `BroadcastTx`: the
lookup is attempted, a success ends the loop, a failure is logged and, unless
it was the last attempt, followed by a delay during which the context may end
the loop.  The first argument counts the attempts left, `log` holds the errors
so far and `resTx` the variable the closure assigns.  The length of a delay
(at most 100 ms) plays no part: a delay is a suspension point at which the
context may be done. -/
def retry.attemptLoop (cc : ChainClient) (ctx : Context) (txid : Bytes) :
    Nat → List GoError → Option ResultTx → Calls → Option ResultTx × Option GoError × Calls
  | 0, log, resTx, c => (resTx, some (retryError log), c)
  | left + 1, log, _, c =>
    let out := cc.RPCClient.Tx c.lookups txid false
    let c1 := { c with lookups := c.lookups + 1 }
    match out.2 with
    | none => (out.1, none, c1)
    | some e =>
      if left = 0 then (out.1, some (retryError (log ++ [e])), c1)
      else if ctx.done c1.selects then
        (out.1, some ctx.Err, { c1 with selects := c1.selects + 1 })
      else
        retry.attemptLoop cc ctx txid left (log ++ [e]) out.1
          { c1 with selects := c1.selects + 1 }

/-- The call `retry.Do(func, retry.Context(ctx), retry.MaxDelay(...))` of
`BroadcastTx`: when the context is already done its error is returned without
any attempt, else the attempt loop runs.  The arguments are the number of
attempts, the log the loop starts from (empty at the call) and the variable
`resTx`; the result is `resTx` and the error of `retry.Do`. -/
def retry.Do (cc : ChainClient) (ctx : Context) (txid : Bytes) (attempts : Nat)
    (log : List GoError) (resTx : Option ResultTx) (c : Calls) :
    Option ResultTx × Option GoError × Calls :=
  if ctx.done c.selects then (resTx, some ctx.Err, c)
  else retry.attemptLoop cc ctx txid attempts log resTx c

/-- The method `ChainClient.mkTxResult`.  The text of the `fmt.Errorf` error
names the dynamic type of the decoded value, which the model does not carry. -/
def ChainClient.mkTxResult (R : Runtime) (cc : ChainClient) (resTx : Option ResultTx) :
    Outcome (Option TxResponse × Option GoError) :=
  match resTx with
  | none => Outcome.panicked
  | some r =>
    match cc.Codec.TxDecoder r.Tx with
    | (_, some err) => Outcome.ret (none, some err)
    | (none, none) =>
      Outcome.ret (none, some ⟨ErrKind.notIntoAny,
        "expecting a type implementing intoAny, got: <nil>"⟩)
    | (some txb, none) =>
      match txb.AsAny with
      | none =>
        Outcome.ret (none, some ⟨ErrKind.notIntoAny,
          "expecting a type implementing intoAny, got: sdk.Tx"⟩)
      | some any =>
        Outcome.ret (NewResponseResultTx (some r) any R.now, none)

/-- The method `ChainClient.BroadcastTx`.  The result is the returned pair
`(res, err)` with the calls made; `fuel` bounds the iterations of the mempool
loop. -/
def ChainClient.BroadcastTx (P : Platform) (R : Runtime) (cc : ChainClient) (ctx : Context)
    (fuel : Nat) (tx : Bytes) :
    Outcome ((Option TxResponse × Option GoError) × Calls) :=
  let out := cc.BroadcastTxSync P tx
  match out.2, out.1 with
  | some err, res => Outcome.ret ((res, some err), {})
  | none, none => Outcome.panicked
  | none, some r =>
    if r.Code ≠ 0 then Outcome.ret ((some r, none), {})
    else
      match mempoolLoop P cc ctx r.TxHash fuel {} with
      | Outcome.outOfFuel => Outcome.outOfFuel
      | Outcome.panicked => Outcome.panicked
      | Outcome.ret (false, c) => Outcome.ret ((some r, none), c)
      | Outcome.ret (true, c) =>
        match hex.DecodeString r.TxHash with
        | Except.error err => Outcome.ret ((some r, some err), c)
        | Except.ok txid =>
          match retry.Do cc ctx txid retry.DefaultAttempts [] none c with
          | (_, some err, c2) => Outcome.ret ((some r, some err), c2)
          | (resTx, none, c2) =>
            match cc.mkTxResult R resTx with
            | Outcome.ret pair => Outcome.ret (pair, c2)
            | Outcome.panicked => Outcome.panicked
            | Outcome.outOfFuel => Outcome.outOfFuel

/-! ## Example environments -/

/-- A node that admits every transaction (code 0, hash of the stand-in
platform), lists the transaction `X` for the first `polls` listings and no
transaction afterwards, fails the first `failures` lookups and then returns
the record of `X`; the decoder packs the bytes it is given. -/
def scriptedClient (X : Bytes) (polls failures : Nat) : ChainClient where
  RPCClient :=
    { BroadcastTxSync := fun tx => (some { Code := 0, Hash := Tx.Hash asciiPlatform tx }, none)
      UnconfirmedTxs := fun i _ =>
        (some { Txs := if i < polls then [[7], X] else [[7]] }, none)
      Tx := fun i hash _ =>
        if i < failures then (none, some ⟨ErrKind.transport, "tx not found"⟩)
        else (some { Hash := hash, Height := 42, Tx := X }, none) }
  Codec := { TxDecoder := fun bz => (some ⟨some (some bz)⟩, none) }

/-- A node that refuses every broadcast with the given transport message. -/
def refusingClient (msg : String) : ChainClient where
  RPCClient :=
    { BroadcastTxSync := fun _ => (none, some ⟨ErrKind.transport, msg⟩)
      UnconfirmedTxs := fun _ _ => (some {}, none)
      Tx := fun _ hash _ => (some { Hash := hash }, none) }
  Codec := { TxDecoder := fun bz => (some ⟨some (some bz)⟩, none) }

/-- A node like `scriptedClient X polls failures` whose listing requests all
fail. -/
def unlistableClient (X : Bytes) (failures : Nat) : ChainClient where
  RPCClient :=
    { (scriptedClient X 0 failures).RPCClient with
      UnconfirmedTxs := fun _ _ => (none, some ⟨ErrKind.transport, "connection reset"⟩) }
  Codec := (scriptedClient X 0 failures).Codec

/-- A node like `scriptedClient X polls 0` whose lookup answers with a record
of the bytes `X` filed under another hash, the single byte 0. -/
def misfilingClient (X : Bytes) (polls : Nat) : ChainClient where
  RPCClient :=
    { (scriptedClient X polls 0).RPCClient with
      Tx := fun _ _ _ => (some { Hash := [0], Height := 42, Tx := X }, none) }
  Codec := (scriptedClient X polls 0).Codec

/-- A context that is never cancelled. -/
def background : Context where
  done := fun _ => false
  Err := ⟨ErrKind.cancelled, "context canceled"⟩

/-- A context cancelled from the suspension point `k` on. -/
def cancelledFrom (k : Nat) : Context where
  done := fun i => decide (k ≤ i)
  Err := ⟨ErrKind.cancelled, "context canceled"⟩

/-- A clock reading. -/
def someTime : Runtime where
  now := "2021-11-04T12:00:00Z"

/-! ## Facts about the string functions -/

theorem containsRunes_iff (s sub : List Char) :
    containsRunes s sub = true ↔ sub <:+: s := by
  induction s with
  | nil =>
    cases sub <;> simp [containsRunes]
  | cons c s ih =>
    simp only [containsRunes, Bool.or_eq_true, List.isPrefixOf_iff_prefix, ih]
    rw [List.infix_cons_iff]

theorem Contains_iff (s substr : String) :
    strings.Contains s substr = true ↔ substr.data <:+: s.data :=
  containsRunes_iff _ _

theorem map_infix_of_infix {α β : Type} (f : α → β) {w l : List α} (h : w <:+: l) :
    w.map f <:+: l.map f := by
  obtain ⟨a, b, rfl⟩ := h
  exact ⟨a.map f, b.map f, by simp⟩

theorem infix_map_elim {α β : Type} (f : α → β) {v : List β} {l : List α}
    (h : v <:+: l.map f) : ∃ w, w <:+: l ∧ w.map f = v := by
  obtain ⟨a, b, hab⟩ := h
  have h1 := hab.symm
  rw [List.map_eq_append_iff] at h1
  obtain ⟨l1, l2, rfl, h2, h3⟩ := h1
  rw [List.map_eq_append_iff] at h2
  obtain ⟨l3, l4, rfl, _, h5⟩ := h2
  exact ⟨l4, ⟨l3, l2, rfl⟩, h5⟩

theorem occursInAnyCase_iff (P : Platform) (phrase msg : String) :
    occursInAnyCase P phrase msg ↔
      strings.Contains (strings.ToLower P msg) phrase = true := by
  rw [Contains_iff]
  constructor
  · rintro ⟨w, hw, hmap⟩
    rw [← hmap]
    exact map_infix_of_infix _ hw
  · intro h
    exact infix_map_elim _ h

theorem ToLower_of_ascii (P : Platform) (s : String)
    (h : ∀ c ∈ s.data, c.toNat < 128) :
    strings.ToLower P s = ⟨s.data.map Char.toLower⟩ := by
  unfold strings.ToLower
  congr 1
  exact List.map_congr_left fun c hc => P.unicodeToLower_ascii c (h c hc)

theorem ToLower_ErrTxInCache (P : Platform) :
    strings.ToLower P ErrTxInCache.Error = "tx already exists in cache" := by
  rw [ToLower_of_ascii P _ (by decide)]
  decide

theorem CheckTendermintError_eq_table (P : Platform) (err : Option GoError) (tx : Bytes) :
    CheckTendermintError P err tx = classifyByTable P rejectionRules err tx := by
  cases err with
  | none => rfl
  | some e =>
    simp only [CheckTendermintError, classifyByTable, rejectionRules, ToLower_ErrTxInCache,
      List.find?]
    by_cases h1 : strings.Contains (strings.ToLower P e.Error) "tx already exists in cache" = true
    · simp [h1, ErrTxInMempoolCache, SdkError.ABCICode, SdkError.Codespace, RootCodespace]
    · by_cases h2 : strings.Contains (strings.ToLower P e.Error) "mempool is full" = true
      · simp [h1, h2, ErrMempoolIsFull, SdkError.ABCICode, SdkError.Codespace, RootCodespace]
      · by_cases h3 : strings.Contains (strings.ToLower P e.Error) "tx too large" = true
        · simp [h1, h2, h3, ErrTxTooLarge, SdkError.ABCICode, SdkError.Codespace, RootCodespace]
        · simp [h1, h2, h3]

/-! ## Facts about runes, folding and hexadecimal digits -/

theorem toNat_ofNat_of_lt (n : Nat) (h : n < 55296) : (Char.ofNat n).toNat = n := by
  have hv : n.isValidChar := Or.inl h
  have h32 : n < 4294967296 := by omega
  simp [Char.ofNat, hv, Char.ofNatAux, Char.toNat, UInt32.toNat, Nat.mod_eq_of_lt h32]

theorem char_eq_of_toNat_eq {c d : Char} (h : c.toNat = d.toNat) : c = d := by
  rw [← Char.ofNat_toNat c, ← Char.ofNat_toNat d, h]

theorem toNat_toUpper (c : Char) :
    c.toUpper.toNat = if 97 ≤ c.toNat ∧ c.toNat ≤ 122 then c.toNat - 32 else c.toNat := by
  unfold Char.toUpper
  by_cases h : c.toNat ≥ 97 ∧ c.toNat ≤ 122
  · simp only [h, and_self, ↓reduceIte]
    rw [toNat_ofNat_of_lt _ (by omega)]
  · simp only [h, ↓reduceIte]

theorem toNat_toLower (c : Char) :
    c.toLower.toNat = if 65 ≤ c.toNat ∧ c.toNat ≤ 90 then c.toNat + 32 else c.toNat := by
  unfold Char.toLower
  by_cases h : c.toNat ≥ 65 ∧ c.toNat ≤ 90
  · simp only [h, and_self, ↓reduceIte]
    rw [toNat_ofNat_of_lt _ (by omega)]
  · simp only [h, ↓reduceIte]

/-- On two ASCII runes the fold step compares the lower-cased code points. -/
theorem runeFoldEq_ascii (P : Platform) (sr tr : Char) (hs : sr.toNat < 128)
    (ht : tr.toNat < 128) :
    runeFoldEq P sr tr = decide (sr.toLower.toNat = tr.toLower.toNat) := by
  rw [toNat_toLower, toNat_toLower]
  unfold runeFoldEq
  by_cases heq : tr = sr
  · subst heq; simp
  · have hne : tr.toNat ≠ sr.toNat := fun h => heq (char_eq_of_toNat_eq h)
    simp only [heq, ↓reduceIte]
    by_cases hlt : tr.toNat < sr.toNat
    · simp only [hlt, ↓reduceIte, hs]
      rw [decide_eq_decide]
      split_ifs <;> omega
    · simp only [hlt, ↓reduceIte, ht]
      rw [decide_eq_decide]
      split_ifs <;> omega

theorem runeFoldEq_refl (P : Platform) (c : Char) : runeFoldEq P c c = true := by
  simp [runeFoldEq]

theorem runeFoldEq_recase (P : Platform) (f : Char → Char)
    (hfix : ∀ c : Char, 128 ≤ c.toNat → f c = c)
    (hascii : ∀ c : Char, c.toNat < 128 → (f c).toNat < 128 ∧ (f c).toLower.toNat = c.toLower.toNat)
    (sr tr : Char) (ht : tr.toNat < 128) :
    runeFoldEq P (f sr) tr = runeFoldEq P sr tr := by
  by_cases hs : sr.toNat < 128
  · rw [runeFoldEq_ascii P _ _ (hascii sr hs).1 ht, runeFoldEq_ascii P _ _ hs ht,
      (hascii sr hs).2]
  · rw [hfix sr (by omega)]

theorem toUpper_recase :
    (∀ c : Char, 128 ≤ c.toNat → c.toUpper = c) ∧
    (∀ c : Char, c.toNat < 128 →
      c.toUpper.toNat < 128 ∧ c.toUpper.toLower.toNat = c.toLower.toNat) := by
  refine ⟨fun c hc => char_eq_of_toNat_eq ?_, fun c hc => ⟨?_, ?_⟩⟩
  · rw [toNat_toUpper]; split_ifs <;> omega
  · rw [toNat_toUpper]; split_ifs <;> omega
  · rw [toNat_toLower, toNat_toLower, toNat_toUpper]; split_ifs <;> omega

theorem toLower_recase :
    (∀ c : Char, 128 ≤ c.toNat → c.toLower = c) ∧
    (∀ c : Char, c.toNat < 128 →
      c.toLower.toNat < 128 ∧ c.toLower.toLower.toNat = c.toLower.toNat) := by
  refine ⟨fun c hc => char_eq_of_toNat_eq ?_, fun c hc => ⟨?_, ?_⟩⟩
  · rw [toNat_toLower]; split_ifs <;> omega
  · rw [toNat_toLower]; split_ifs <;> omega
  · rw [toNat_toLower, toNat_toLower]; split_ifs <;> omega

theorem equalFoldRunes_refl (P : Platform) (s : List Char) : equalFoldRunes P s s = true := by
  induction s with
  | nil => rfl
  | cons c s ih => simp [equalFoldRunes, runeFoldEq_refl, ih]

theorem equalFoldRunes_recase (P : Platform) (f : Char → Char)
    (hfix : ∀ c : Char, 128 ≤ c.toNat → f c = c)
    (hascii : ∀ c : Char, c.toNat < 128 → (f c).toNat < 128 ∧ (f c).toLower.toNat = c.toLower.toNat)
    (s t : List Char) (ht : ∀ c ∈ t, c.toNat < 128) :
    equalFoldRunes P (s.map f) t = equalFoldRunes P s t := by
  induction s generalizing t with
  | nil => cases t <;> rfl
  | cons a s ih =>
    cases t with
    | nil => rfl
    | cons b t =>
      simp only [List.map_cons, equalFoldRunes]
      rw [runeFoldEq_recase P f hfix hascii a b (ht b (List.mem_cons_self _ _)),
        ih t (fun c hc => ht c (List.mem_cons_of_mem _ hc))]

theorem hexDigitUpper_ascii : ∀ n : Fin 16, (hexDigitUpper n.val).toNat < 128 := by decide

theorem fromHexChar_hexDigitUpper : ∀ n : Fin 16, fromHexChar (hexDigitUpper n.val) = some n.val := by
  decide

theorem sprintfX_ascii (bz : Bytes) : ∀ c ∈ (sprintfX bz).data, c.toNat < 128 := by
  induction bz with
  | nil => intro c hc; cases hc
  | cons b bz ih =>
    intro c hc
    simp only [sprintfX, List.flatMap_cons, List.mem_append, hexByteUpper, List.mem_cons,
      List.mem_singleton, List.not_mem_nil, or_false] at hc
    rcases hc with (rfl | rfl) | hc
    · exact hexDigitUpper_ascii ⟨b.val / 16, by omega⟩
    · exact hexDigitUpper_ascii ⟨b.val % 16, by omega⟩
    · exact ih c hc

theorem decodeHex_sprintfX (bz : Bytes) : decodeHexRunes (sprintfX bz).data = some bz := by
  induction bz with
  | nil => rfl
  | cons b bz ih =>
    have h1 := fromHexChar_hexDigitUpper ⟨b.val / 16, by omega⟩
    have h2 := fromHexChar_hexDigitUpper ⟨b.val % 16, by omega⟩
    have hcons : (sprintfX (b :: bz)).data =
        hexDigitUpper (b.val / 16) :: hexDigitUpper (b.val % 16) :: (sprintfX bz).data := rfl
    simp only [] at h1 h2
    rw [hcons, decodeHexRunes, h1, h2, ih]
    simp only [Option.some.injEq, List.cons.injEq, and_true]
    apply Fin.ext
    simp only [Fin.ofNat, Fin.val_mk]
    omega

theorem DecodeString_sprintfX (bz : Bytes) : hex.DecodeString (sprintfX bz) = Except.ok bz := by
  simp [hex.DecodeString, decodeHex_sprintfX]

theorem EqualFold_refl (P : Platform) (s : String) : strings.EqualFold P s s = true :=
  equalFoldRunes_refl P s.data

theorem EqualFold_asciiUpper (P : Platform) (s : String) (bz : Bytes) :
    strings.EqualFold P (asciiUpper s) (sprintfX bz) = strings.EqualFold P s (sprintfX bz) :=
  equalFoldRunes_recase P Char.toUpper toUpper_recase.1 toUpper_recase.2 _ _ (sprintfX_ascii bz)

theorem EqualFold_asciiLower (P : Platform) (s : String) (bz : Bytes) :
    strings.EqualFold P (asciiLower s) (sprintfX bz) = strings.EqualFold P s (sprintfX bz) :=
  equalFoldRunes_recase P Char.toLower toLower_recase.1 toLower_recase.2 _ _ (sprintfX_ascii bz)

theorem txsLoop_iff (P : Platform) (txHash : String) (txs : List Bytes) :
    txsLoop P txHash txs = true ↔
      ∃ txbz ∈ txs, strings.EqualFold P txHash (sprintfX (Tx.Hash P txbz)) = true := by
  induction txs with
  | nil => simp [txsLoop]
  | cons a txs ih =>
    by_cases h : strings.EqualFold P txHash (sprintfX (Tx.Hash P a)) = true
    · simp [txsLoop, h]
    · simp [txsLoop, h, ih]

theorem txsLoop_congr (P : Platform) (s t : String) (txs : List Bytes)
    (h : ∀ bz, strings.EqualFold P s (sprintfX bz) = strings.EqualFold P t (sprintfX bz)) :
    txsLoop P s txs = txsLoop P t txs := by
  induction txs with
  | nil => rfl
  | cons a txs ih => simp [txsLoop, h, ih]

theorem equalFoldRunes_ascii (P : Platform) (s t : List Char)
    (hs : ∀ c ∈ s, c.toNat < 128) (ht : ∀ c ∈ t, c.toNat < 128) :
    equalFoldRunes P s t = true ↔ s.map Char.toLower = t.map Char.toLower := by
  induction s generalizing t with
  | nil => cases t <;> simp [equalFoldRunes]
  | cons a s ih =>
    cases t with
    | nil => simp [equalFoldRunes]
    | cons b t =>
      have ha := hs a (List.mem_cons_self _ _)
      have hb := ht b (List.mem_cons_self _ _)
      simp only [equalFoldRunes, Bool.and_eq_true, List.map_cons, List.cons.injEq,
        runeFoldEq_ascii P a b ha hb, decide_eq_true_eq,
        ih t (fun c hc => hs c (List.mem_cons_of_mem _ hc))
          (fun c hc => ht c (List.mem_cons_of_mem _ hc))]
      constructor
      · rintro ⟨h1, h2⟩
        exact ⟨char_eq_of_toNat_eq h1, h2⟩
      · rintro ⟨h1, h2⟩
        exact ⟨by rw [h1], h2⟩

theorem EqualFold_ascii (P : Platform) (s : String) (bz : Bytes)
    (hs : ∀ c ∈ s.data, c.toNat < 128) :
    strings.EqualFold P s (sprintfX bz) = true ↔ asciiLower s = asciiLower (sprintfX bz) := by
  unfold strings.EqualFold asciiLower
  rw [equalFoldRunes_ascii P _ _ hs (sprintfX_ascii bz)]
  constructor
  · intro h; rw [h]
  · intro h; exact congrArg String.data h

/-! ## Facts about the flow -/

theorem TxInMempool_listed (P : Platform) (cc : ChainClient) (i : Nat) (txHash : String)
    (res : ResultUnconfirmedTxs)
    (hl : cc.RPCClient.UnconfirmedTxs i 1000 = (some res, none)) :
    cc.TxInMempool P i txHash = Outcome.ret (txsLoop P txHash res.Txs) := by
  simp [ChainClient.TxInMempool, hl]

theorem TxInMempool_failed (P : Platform) (cc : ChainClient) (i : Nat) (txHash : String)
    (e : GoError) (hl : (cc.RPCClient.UnconfirmedTxs i 1000).2 = some e) :
    cc.TxInMempool P i txHash = Outcome.ret false := by
  rcases hq : cc.RPCClient.UnconfirmedTxs i 1000 with ⟨a, b⟩
  rw [hq] at hl
  simp only at hl
  subst hl
  simp [ChainClient.TxInMempool, hq]

theorem mempoolLoop_cancel (P : Platform) (cc : ChainClient) (ctx : Context) (h : String)
    (fuel : Nat) (c : Calls) (hd : ctx.done c.selects = true) :
    mempoolLoop P cc ctx h (fuel + 1) c =
      Outcome.ret (false, ⟨c.listings, c.lookups, c.selects + 1⟩) := by
  simp [mempoolLoop, hd]

theorem mempoolLoop_exit (P : Platform) (cc : ChainClient) (ctx : Context) (h : String)
    (fuel : Nat) (c : Calls) (hd : ctx.done c.selects = false)
    (hgone : cc.TxInMempool P c.listings h = Outcome.ret false) :
    mempoolLoop P cc ctx h (fuel + 1) c =
      Outcome.ret (true, ⟨c.listings + 1, c.lookups, c.selects + 1⟩) := by
  simp [mempoolLoop, hd, hgone]

theorem mempoolLoop_present (P : Platform) (cc : ChainClient) (ctx : Context) (h : String)
    (n fuel : Nat) (c : Calls)
    (hp : ∀ i < n, ctx.done (c.selects + i) = false ∧
      cc.TxInMempool P (c.listings + i) h = Outcome.ret true) :
    mempoolLoop P cc ctx h (n + fuel) c =
      mempoolLoop P cc ctx h fuel ⟨c.listings + n, c.lookups, c.selects + n⟩ := by
  induction n generalizing c with
  | zero => simp
  | succ n ih =>
    have h0 := hp 0 (Nat.succ_pos n)
    simp only [Nat.add_zero] at h0
    have hstep : n + 1 + fuel = (n + fuel) + 1 := by omega
    rw [hstep, mempoolLoop]
    simp only [h0.1, Bool.false_eq_true, ↓reduceIte, h0.2]
    rw [ih]
    · congr 2 <;> simp only <;> omega
    · intro i hi
      have := hp (i + 1) (by omega)
      simp only at this ⊢
      rw [show c.selects + 1 + i = c.selects + (i + 1) by omega,
        show c.listings + 1 + i = c.listings + (i + 1) by omega]
      exact this

theorem attemptLoop_transient (cc : ChainClient) (ctx : Context) (txid : Bytes)
    (rec : ResultTx) (k : Nat) :
    ∀ (left : Nat) (log : List GoError) (resTx : Option ResultTx) (c : Calls),
    k < left →
    (∀ i < k, (cc.RPCClient.Tx (c.lookups + i) txid false).2 ≠ none) →
    cc.RPCClient.Tx (c.lookups + k) txid false = (some rec, none) →
    (∀ i < k, ctx.done (c.selects + i) = false) →
    retry.attemptLoop cc ctx txid left log resTx c =
      (some rec, none, ⟨c.listings, c.lookups + k + 1, c.selects + k⟩) := by
  induction k with
  | zero =>
    intro left log resTx c hk _ hok _
    obtain ⟨left, rfl⟩ : ∃ m, left = m + 1 := ⟨left - 1, by omega⟩
    simp only [Nat.add_zero] at hok
    simp [retry.attemptLoop, hok]
  | succ k ih =>
    intro left log resTx c hk hfail hok hctx
    obtain ⟨left, rfl⟩ : ∃ m, left = m + 1 := ⟨left - 1, by omega⟩
    have hf0 := hfail 0 (Nat.succ_pos k)
    simp only [Nat.add_zero] at hf0
    obtain ⟨e, he⟩ := Option.ne_none_iff_exists'.1 hf0
    have hd0 := hctx 0 (Nat.succ_pos k)
    simp only [Nat.add_zero] at hd0
    have hleft : left ≠ 0 := by omega
    rw [retry.attemptLoop]
    simp only [he, hleft, ↓reduceIte, hd0, Bool.false_eq_true]
    rw [ih left _ _ _ (by omega)]
    · congr 3 <;> simp only <;> omega
    · intro i hi
      have := hfail (i + 1) (by omega)
      simp only at this ⊢
      rw [show c.lookups + 1 + i = c.lookups + (i + 1) by omega]
      exact this
    · simp only
      rw [show c.lookups + 1 + k = c.lookups + (k + 1) by omega]
      exact hok
    · intro i hi
      have := hctx (i + 1) (by omega)
      simp only at this ⊢
      rw [show c.selects + 1 + i = c.selects + (i + 1) by omega]
      exact this

theorem retryDo_transient (cc : ChainClient) (ctx : Context) (txid : Bytes) (rec : ResultTx)
    (k : Nat) (left : Nat) (log : List GoError) (resTx : Option ResultTx) (c : Calls)
    (hentry : ctx.done c.selects = false) (hk : k < left)
    (hfail : ∀ i < k, (cc.RPCClient.Tx (c.lookups + i) txid false).2 ≠ none)
    (hok : cc.RPCClient.Tx (c.lookups + k) txid false = (some rec, none))
    (hctx : ∀ i < k, ctx.done (c.selects + i) = false) :
    retry.Do cc ctx txid left log resTx c =
      (some rec, none, ⟨c.listings, c.lookups + k + 1, c.selects + k⟩) := by
  simp only [retry.Do, hentry, Bool.false_eq_true, ↓reduceIte]
  exact attemptLoop_transient cc ctx txid rec k left log resTx c hk hfail hok hctx

theorem attemptLoop_calls (cc : ChainClient) (ctx : Context) (txid : Bytes) :
    ∀ (left : Nat) (log : List GoError) (resTx : Option ResultTx) (c : Calls),
    (retry.attemptLoop cc ctx txid left log resTx c).2.2.listings = c.listings ∧
    c.lookups + min left 1 ≤ (retry.attemptLoop cc ctx txid left log resTx c).2.2.lookups := by
  intro left
  induction left with
  | zero => intro log resTx c; simp [retry.attemptLoop]
  | succ left ih =>
    intro log resTx c
    rw [retry.attemptLoop]
    cases he : (cc.RPCClient.Tx c.lookups txid false).2 with
    | none => simp
    | some e =>
      simp only
      by_cases hl : left = 0
      · simp [hl]
      · simp only [hl, ↓reduceIte]
        by_cases hd : ctx.done c.selects = true
        · simp [hd]
        · simp only [hd, Bool.false_eq_true, ↓reduceIte]
          have := ih (log ++ [e]) (cc.RPCClient.Tx c.lookups txid false).1
            ⟨c.listings, c.lookups + 1, c.selects + 1⟩
          simp only at this
          refine ⟨this.1, ?_⟩
          have h2 := this.2
          have : min (left + 1) 1 = 1 := by omega
          omega

theorem retryDo_calls (cc : ChainClient) (ctx : Context) (txid : Bytes)
    (left : Nat) (log : List GoError) (resTx : Option ResultTx) (c : Calls) :
    (retry.Do cc ctx txid left log resTx c).2.2.listings = c.listings ∧
    (ctx.done c.selects = false →
      c.lookups + min left 1 ≤ (retry.Do cc ctx txid left log resTx c).2.2.lookups) := by
  by_cases hd : ctx.done c.selects = true
  · simp [retry.Do, hd]
  · have hf : ctx.done c.selects = false := by simpa using hd
    simp only [retry.Do, hf, Bool.false_eq_true, ↓reduceIte, true_implies]
    exact attemptLoop_calls cc ctx txid left log resTx c

theorem BroadcastTx_after_wait (P : Platform) (R : Runtime) (cc : ChainClient) (ctx : Context)
    (fuel : Nat) (tx : Bytes) (r : TxResponse) (c c2 : Calls) (txid : Bytes)
    (resTx : Option ResultTx)
    (hb : cc.BroadcastTxSync P tx = (some r, none)) (hcode : r.Code = 0)
    (hwait : mempoolLoop P cc ctx r.TxHash fuel {} = Outcome.ret (true, c))
    (hhex : hex.DecodeString r.TxHash = Except.ok txid)
    (hretry : retry.Do cc ctx txid retry.DefaultAttempts [] none c = (resTx, none, c2)) :
    cc.BroadcastTx P R ctx fuel tx =
      match cc.mkTxResult R resTx with
      | Outcome.ret pair => Outcome.ret (pair, c2)
      | Outcome.panicked => Outcome.panicked
      | Outcome.outOfFuel => Outcome.outOfFuel := by
  simp [ChainClient.BroadcastTx, hb, hcode, hwait, hhex, hretry]

theorem BroadcastTxSync_accepted (P : Platform) (cc : ChainClient) (tx : Bytes) (r : TxResponse)
    (hb : cc.BroadcastTxSync P tx = (some r, none)) (hcode : r.Code = 0) :
    ∃ rb, cc.RPCClient.BroadcastTxSync tx = (some rb, none) ∧
      r = { Code := rb.Code, Codespace := rb.Codespace, Data := sprintfX rb.Data,
            RawLog := rb.Log, TxHash := sprintfX rb.Hash } := by
  simp only [ChainClient.BroadcastTxSync] at hb
  cases hc : CheckTendermintError P (cc.RPCClient.BroadcastTxSync tx).2 tx with
  | some errRes =>
    rw [hc] at hb
    simp only [Prod.mk.injEq, Option.some.injEq, and_true] at hb
    subst hb
    exfalso
    obtain ⟨e, he⟩ : ∃ e, (cc.RPCClient.BroadcastTxSync tx).2 = some e := by
      cases h : (cc.RPCClient.BroadcastTxSync tx).2 with
      | none => rw [h] at hc; simp [CheckTendermintError] at hc
      | some e => exact ⟨e, rfl⟩
    rw [he, CheckTendermintError_eq_table] at hc
    simp only [classifyByTable] at hc
    cases hf : List.find? (fun r => strings.Contains (strings.ToLower P e.Error) r.phrase)
        rejectionRules with
    | none => rw [hf] at hc; cases hc
    | some q =>
      rw [hf] at hc
      have hq : q ∈ rejectionRules := List.mem_of_find?_eq_some hf
      simp only [Option.some.injEq] at hc
      rw [← hc] at hcode
      simp only [rejectionRules, List.mem_cons, List.mem_singleton, List.not_mem_nil,
        or_false] at hq
      rcases hq with rfl | rfl | rfl <;> simp at hcode
  | none =>
    rw [hc] at hb
    simp only [Prod.mk.injEq] at hb
    rcases hq : cc.RPCClient.BroadcastTxSync tx with ⟨a, b⟩
    rw [hq] at hb
    simp only at hb
    obtain ⟨h1, h2⟩ := hb
    subst h2
    cases a with
    | none => simp [NewResponseFormatBroadcastTx] at h1
    | some rb =>
      refine ⟨rb, rfl, ?_⟩
      simp only [NewResponseFormatBroadcastTx, Option.some.injEq] at h1
      exact h1.symm


/-! ## The classifier -/

/-- C10: classification is first-match-wins over the rule order (already in
cache, pool full, too large): for every error and transaction the code returns
what the ordered rule table returns, namely the code and codespace of the
earliest rule whose phrase occurs in the lower-cased message, with the hash of
the transaction, and nothing when no rule matches or the error is nil. -/
theorem CheckTendermintError_first_match (P : Platform) (err : Option GoError) (tx : Bytes) :
    CheckTendermintError P err tx = classifyByTable P rejectionRules err tx ∧
    (∀ e, err = some e → ∀ pre r post, rejectionRules = pre ++ r :: post →
      occursInAnyCase P r.phrase e.Error →
      (∀ q ∈ pre, ¬ occursInAnyCase P q.phrase e.Error) →
      CheckTendermintError P err tx =
        some { Code := r.code, Codespace := r.codespace, TxHash := sprintfX (Tx.Hash P tx) }) := by
  refine ⟨CheckTendermintError_eq_table P err tx, ?_⟩
  rintro e rfl pre r post htab hocc hpre
  rw [CheckTendermintError_eq_table]
  simp only [classifyByTable, htab]
  have hfind : List.find? (fun r => strings.Contains (strings.ToLower P e.Error) r.phrase)
      (pre ++ r :: post) = some r := by
    rw [List.find?_append]
    have h1 : List.find? (fun r => strings.Contains (strings.ToLower P e.Error) r.phrase) pre
        = none := by
      rw [List.find?_eq_none]
      intro q hq
      have := hpre q hq
      rw [occursInAnyCase_iff] at this
      simpa using this
    rw [h1]
    have h2 := (occursInAnyCase_iff P r.phrase e.Error).1 hocc
    simp [List.find?, h2]
  rw [hfind]

/-- C2: the classifier returns nothing exactly for the nil error and for the
errors whose lower-cased message contains none of the three phrases; so a
result is returned only when some rule phrase occurs in the message. -/
theorem CheckTendermintError_none_iff (P : Platform) (err : Option GoError) (tx : Bytes) :
    CheckTendermintError P err tx = none ↔
      (err = none ∨ ∃ e, err = some e ∧
        ∀ r ∈ rejectionRules, ¬ r.phrase.data <:+: (strings.ToLower P e.Error).data) := by
  rw [CheckTendermintError_eq_table]
  cases err with
  | none => simp [classifyByTable]
  | some e =>
    simp only [classifyByTable, reduceCtorEq, Option.some.injEq, exists_eq_left', false_or]
    constructor
    · intro h r hr
      rw [← Contains_iff]
      cases hf : List.find? (fun r => strings.Contains (strings.ToLower P e.Error) r.phrase)
          rejectionRules with
      | none =>
        rw [List.find?_eq_none] at hf
        exact hf r hr
      | some q => rw [hf] at h; cases h
    · intro h
      have hf : List.find? (fun r => strings.Contains (strings.ToLower P e.Error) r.phrase)
          rejectionRules = none := by
        rw [List.find?_eq_none]
        intro r hr
        rw [Contains_iff]
        exact h r hr
      rw [hf]

/-- C1 (as amended): for every phrase of the rule table, every non-nil error
whose message contains the phrase in some letter case and every transaction,
the classifier returns a response whose hash is the upper-case hexadecimal
content hash of the transaction and whose code and codespace are the fixed
pair of a rule of the table, nonzero and in codespace "sdk"; the pair is that
of the phrase itself whenever no earlier rule of the table also occurs. -/
theorem CheckTendermintError_phrase (P : Platform) (r : RejectionRule)
    (hr : r ∈ rejectionRules) (e : GoError) (tx : Bytes)
    (hocc : occursInAnyCase P r.phrase e.Error) :
    ∃ q ∈ rejectionRules,
      CheckTendermintError P (some e) tx =
        some { Code := q.code, Codespace := q.codespace, TxHash := sprintfX (Tx.Hash P tx) } ∧
      q.code ≠ 0 ∧ q.codespace = "sdk" ∧
      (q.code = ErrTxInMempoolCache.ABCICode ∨ q.code = ErrMempoolIsFull.ABCICode ∨
        q.code = ErrTxTooLarge.ABCICode) ∧
      (∀ pre post, rejectionRules = pre ++ r :: post →
        (∀ p ∈ pre, ¬ occursInAnyCase P p.phrase e.Error) → q = r) := by
  rw [CheckTendermintError_eq_table]
  have hc := (occursInAnyCase_iff P r.phrase e.Error).1 hocc
  cases hf : List.find? (fun r => strings.Contains (strings.ToLower P e.Error) r.phrase)
      rejectionRules with
  | none =>
    rw [List.find?_eq_none] at hf
    exact absurd hc (hf r hr)
  | some q =>
    have hq : q ∈ rejectionRules := List.mem_of_find?_eq_some hf
    refine ⟨q, hq, by simp [classifyByTable, hf], ?_, ?_, ?_, ?_⟩
    · simp only [rejectionRules, List.mem_cons, List.mem_singleton, List.not_mem_nil,
        or_false] at hq
      rcases hq with rfl | rfl | rfl <;> decide
    · simp only [rejectionRules, List.mem_cons, List.mem_singleton, List.not_mem_nil,
        or_false] at hq
      rcases hq with rfl | rfl | rfl <;> rfl
    · simp only [rejectionRules, List.mem_cons, List.mem_singleton, List.not_mem_nil,
        or_false] at hq
      rcases hq with rfl | rfl | rfl <;> decide
    · intro pre post htab hpre
      rw [htab, List.find?_append] at hf
      have h1 : List.find? (fun r => strings.Contains (strings.ToLower P e.Error) r.phrase) pre
          = none := by
        rw [List.find?_eq_none]
        intro p hp
        have := hpre p hp
        rw [occursInAnyCase_iff] at this
        simpa using this
      rw [h1] at hf
      simp [List.find?, hc] at hf
      exact hf.symm

/-- A witness of C1: an upper-case "MEMPOOL IS FULL" inside a message. -/
theorem CheckTendermintError_phrase_witness :
    ∃ q ∈ rejectionRules,
      CheckTendermintError asciiPlatform
          (some ⟨ErrKind.transport, "rpc error: MEMPOOL IS FULL (5000 txs)"⟩) [1, 171] =
        some { Code := q.code, Codespace := q.codespace,
               TxHash := sprintfX (Tx.Hash asciiPlatform [1, 171]) } ∧
      q.code ≠ 0 ∧ q.codespace = "sdk" ∧
      (q.code = ErrTxInMempoolCache.ABCICode ∨ q.code = ErrMempoolIsFull.ABCICode ∨
        q.code = ErrTxTooLarge.ABCICode) ∧
      (∀ pre post, rejectionRules = pre ++ (⟨"mempool is full", 20, "sdk"⟩ : RejectionRule) :: post →
        (∀ p ∈ pre, ¬ occursInAnyCase asciiPlatform p.phrase
          (GoError.Error ⟨ErrKind.transport, "rpc error: MEMPOOL IS FULL (5000 txs)"⟩)) →
        q = ⟨"mempool is full", 20, "sdk"⟩) :=
  CheckTendermintError_phrase asciiPlatform ⟨"mempool is full", 20, "sdk"⟩ (by decide)
    ⟨ErrKind.transport, "rpc error: MEMPOOL IS FULL (5000 txs)"⟩ [1, 171]
    ⟨"MEMPOOL IS FULL".data, ⟨"rpc error: ".data, " (5000 txs)".data, rfl⟩, by decide⟩

/-- The counterexample to C1 as stated: the message contains "mempool is full",
yet the classifier answers with code 19 of the earlier rule "tx already exists
in cache", which the message contains too, and not with code 20. -/
theorem CheckTendermintError_phrase_shadowed :
    occursInAnyCase asciiPlatform "mempool is full"
        "mempool is full: tx already exists in cache" ∧
      CheckTendermintError asciiPlatform
          (some ⟨ErrKind.transport, "mempool is full: tx already exists in cache"⟩) [1, 171] =
        some { Code := 19, Codespace := "sdk", TxHash := "01AB" } ∧
      (19 : Nat) ≠ ErrMempoolIsFull.ABCICode :=
  ⟨⟨"mempool is full".data, ⟨[], ": tx already exists in cache".data, rfl⟩, by decide⟩,
    by decide, by decide⟩


/-! ## The submitter -/

/-- C3: `BroadcastTxSync`, for every transaction and every outcome `(res, err)`
of the node's broadcast call: when `err` is non-nil and the classifier
recognises it, the classifier's result is returned with a nil error; when
`err` is non-nil and not recognised, that same `err` is returned as the error,
unchanged; when `err` is nil, the formatted broadcast response is returned with
a nil error. -/
theorem BroadcastTxSync_outcomes (P : Platform) (cc : ChainClient) (tx : Bytes)
    (res : Option ResultBroadcastTx) (err : Option GoError)
    (hout : cc.RPCClient.BroadcastTxSync tx = (res, err)) :
    (∀ e r, err = some e → CheckTendermintError P (some e) tx = some r →
      cc.BroadcastTxSync P tx = (some r, none)) ∧
    (∀ e, err = some e → CheckTendermintError P (some e) tx = none →
      cc.BroadcastTxSync P tx = (NewResponseFormatBroadcastTx res, some e)) ∧
    (err = none → cc.BroadcastTxSync P tx = (NewResponseFormatBroadcastTx res, none)) := by
  refine ⟨?_, ?_, ?_⟩
  · rintro e r rfl hc
    simp [ChainClient.BroadcastTxSync, hout, hc]
  · rintro e rfl hc
    simp [ChainClient.BroadcastTxSync, hout, hc]
  · rintro rfl
    simp [ChainClient.BroadcastTxSync, hout, CheckTendermintError]

/-- A witness of C3: a node refusing with "mempool is full". -/
theorem BroadcastTxSync_outcomes_witness :
    (∀ e r, some (GoError.mk ErrKind.transport "mempool is full") = some e →
      CheckTendermintError asciiPlatform (some e) [171, 193, 35] = some r →
      (refusingClient "mempool is full").BroadcastTxSync asciiPlatform [171, 193, 35] =
        (some r, none)) ∧
    (∀ e, some (GoError.mk ErrKind.transport "mempool is full") = some e →
      CheckTendermintError asciiPlatform (some e) [171, 193, 35] = none →
      (refusingClient "mempool is full").BroadcastTxSync asciiPlatform [171, 193, 35] =
        (NewResponseFormatBroadcastTx none, some e)) ∧
    (some (GoError.mk ErrKind.transport "mempool is full") = none →
      (refusingClient "mempool is full").BroadcastTxSync asciiPlatform [171, 193, 35] =
        (NewResponseFormatBroadcastTx none, none)) :=
  BroadcastTxSync_outcomes asciiPlatform (refusingClient "mempool is full") [171, 193, 35]
    none (some ⟨ErrKind.transport, "mempool is full"⟩) rfl

/-! ## The flow of `BroadcastTx` -/

/-- C4: whenever the broadcast stage yields an error or a response with a
nonzero code, `BroadcastTx` returns exactly that pair and makes no listing
call and no lookup call (and passes no suspension point), whatever the fuel. -/
theorem BroadcastTx_stops_on_rejection (P : Platform) (R : Runtime) (cc : ChainClient)
    (ctx : Context) (fuel : Nat) (tx : Bytes)
    (h : (cc.BroadcastTxSync P tx).2 ≠ none ∨
      ∃ r, (cc.BroadcastTxSync P tx).1 = some r ∧ r.Code ≠ 0) :
    cc.BroadcastTx P R ctx fuel tx =
      Outcome.ret (cc.BroadcastTxSync P tx, { listings := 0, lookups := 0, selects := 0 }) := by
  rcases hq : cc.BroadcastTxSync P tx with ⟨res, err⟩
  rw [hq] at h
  simp only at h
  cases err with
  | some e => simp [ChainClient.BroadcastTx, hq]
  | none =>
    rcases h with h | ⟨r, rfl, hr⟩
    · exact absurd rfl h
    · simp [ChainClient.BroadcastTx, hq, hr]

/-- A witness of C4, the scenario of the specification: the broadcast fails
with "mempool is full"; the result is the classified rejection with code 20,
and no listing or lookup call is made. -/
theorem BroadcastTx_stops_on_rejection_witness :
    (refusingClient "mempool is full").BroadcastTx asciiPlatform someTime background 0
        [171, 193, 35] =
      Outcome.ret ((refusingClient "mempool is full").BroadcastTxSync asciiPlatform [171, 193, 35],
        { listings := 0, lookups := 0, selects := 0 }) ∧
    (refusingClient "mempool is full").BroadcastTxSync asciiPlatform [171, 193, 35] =
      (some { Code := 20, Codespace := "sdk", TxHash := "ABC123" }, none) :=
  ⟨BroadcastTx_stops_on_rejection asciiPlatform someTime (refusingClient "mempool is full")
    background 0 [171, 193, 35] (Or.inr ⟨{ Code := 20, Codespace := "sdk", TxHash := "ABC123" },
      by decide, by decide⟩), by decide⟩

/-- C5 (what the code does): when the cancellation signal fires at the
`n`-th suspension point of the mempool wait, the transaction having been listed
at every poll before, `BroadcastTx` returns the code-0 response of the
broadcast stage together with a nil error, after `n` listing calls and without
any lookup. -/
theorem BroadcastTx_cancelled_returns_nil_error (P : Platform) (R : Runtime)
    (cc : ChainClient) (ctx : Context) (tx : Bytes) (r : TxResponse) (n fuel : Nat)
    (hb : cc.BroadcastTxSync P tx = (some r, none)) (hcode : r.Code = 0)
    (hpresent : ∀ i < n, ctx.done i = false ∧ cc.TxInMempool P i r.TxHash = Outcome.ret true)
    (hdone : ctx.done n = true) (hfuel : n < fuel) :
    cc.BroadcastTx P R ctx fuel tx =
      Outcome.ret ((some r, none), { listings := n, lookups := 0, selects := n + 1 }) := by
  obtain ⟨m, rfl⟩ : ∃ m, fuel = n + (m + 1) := ⟨fuel - n - 1, by omega⟩
  have hloop : mempoolLoop P cc ctx r.TxHash (n + (m + 1)) {} =
      Outcome.ret (false, ⟨n, 0, n + 1⟩) := by
    rw [mempoolLoop_present P cc ctx r.TxHash n (m + 1) {} (by simpa using hpresent)]
    rw [mempoolLoop_cancel _ _ _ _ _ _ (by simpa using hdone)]
    simp
  simp [ChainClient.BroadcastTx, hb, hcode, hloop]

/-- The failing input of C5: the broadcast is accepted with code 0, the
transaction is listed at two polls, then the context is cancelled; the call
returns the code-0 response and a nil error. -/
theorem BroadcastTx_cancelled_returns_nil_error_witness :
    (scriptedClient [171, 193, 35] 3 0).BroadcastTx asciiPlatform someTime (cancelledFrom 2) 10
        [171, 193, 35] =
      Outcome.ret ((some { Code := 0, TxHash := "ABC123" }, none),
        { listings := 2, lookups := 0, selects := 2 + 1 }) :=
  BroadcastTx_cancelled_returns_nil_error asciiPlatform someTime
    (scriptedClient [171, 193, 35] 3 0) (cancelledFrom 2) [171, 193, 35]
    { Code := 0, TxHash := "ABC123" } 2 10 (by decide) rfl (by decide) (by decide) (by decide)

/-- C6 (as amended): a poll whose listing request fails counts as the
transaction having left the pool.  `TxInMempool` returns false at such a poll
and the mempool loop is left there; so when the transaction was listed at the
first `n` polls and the listing fails at the next, `BroadcastTx` does not go on
waiting: whenever it returns it has made exactly `n + 1` listing calls, and
unless the context is done by then it has gone on to the confirmation lookup
and made at least one lookup call. -/
theorem BroadcastTx_failed_listing_ends_wait (P : Platform) (R : Runtime) (cc : ChainClient)
    (ctx : Context) (tx : Bytes) (r : TxResponse) (n fuel : Nat) (e : GoError)
    (hb : cc.BroadcastTxSync P tx = (some r, none)) (hcode : r.Code = 0)
    (hpresent : ∀ i < n, ctx.done i = false ∧ cc.TxInMempool P i r.TxHash = Outcome.ret true)
    (hd : ctx.done n = false)
    (hfail : (cc.RPCClient.UnconfirmedTxs n 1000).2 = some e) (hfuel : n < fuel) :
    cc.TxInMempool P n r.TxHash = Outcome.ret false ∧
    mempoolLoop P cc ctx r.TxHash fuel {} =
      Outcome.ret (true, { listings := n + 1, lookups := 0, selects := n + 1 }) ∧
    cc.BroadcastTx P R ctx fuel tx ≠ Outcome.outOfFuel ∧
    (∀ pair calls, cc.BroadcastTx P R ctx fuel tx = Outcome.ret (pair, calls) →
      calls.listings = n + 1 ∧ (ctx.done (n + 1) = false → 1 ≤ calls.lookups)) := by
  obtain ⟨m, rfl⟩ : ∃ m, fuel = n + (m + 1) := ⟨fuel - n - 1, by omega⟩
  have hfalse := TxInMempool_failed P cc n r.TxHash e hfail
  have hloop : mempoolLoop P cc ctx r.TxHash (n + (m + 1)) {} =
      Outcome.ret (true, ⟨n + 1, 0, n + 1⟩) := by
    rw [mempoolLoop_present P cc ctx r.TxHash n (m + 1) {} (by simpa using hpresent)]
    rw [mempoolLoop_exit _ _ _ _ _ _ (by simpa using hd) (by simpa using hfalse)]
    simp
  obtain ⟨rb, _, hr⟩ := BroadcastTxSync_accepted P cc tx r hb hcode
  have hhex : hex.DecodeString r.TxHash = Except.ok rb.Hash := by
    rw [hr]; exact DecodeString_sprintfX rb.Hash
  have hcalls := retryDo_calls cc ctx rb.Hash retry.DefaultAttempts [] none ⟨n + 1, 0, n + 1⟩
  have hstep : cc.BroadcastTx P R ctx (n + (m + 1)) tx =
      match retry.Do cc ctx rb.Hash retry.DefaultAttempts [] none ⟨n + 1, 0, n + 1⟩ with
      | (_, some err, c2) => Outcome.ret ((some r, some err), c2)
      | (resTx, none, c2) =>
        match cc.mkTxResult R resTx with
        | Outcome.ret pair => Outcome.ret (pair, c2)
        | Outcome.panicked => Outcome.panicked
        | Outcome.outOfFuel => Outcome.outOfFuel := by
    simp [ChainClient.BroadcastTx, hb, hcode, hloop, hhex]
  have hmk : ∀ resTx, cc.mkTxResult R resTx ≠ Outcome.outOfFuel := by
    intro resTx hm
    simp only [ChainClient.mkTxResult] at hm
    split at hm
    · cases hm
    · split at hm <;> first | cases hm | (split at hm <;> cases hm)
  rcases hq : retry.Do cc ctx rb.Hash retry.DefaultAttempts [] none ⟨n + 1, 0, n + 1⟩ with
    ⟨resTx, err, c2⟩
  rw [hq] at hcalls hstep
  simp only [retry.DefaultAttempts] at hcalls
  have hc2 : c2.listings = n + 1 ∧ (ctx.done (n + 1) = false → 1 ≤ c2.lookups) :=
    ⟨hcalls.1, fun h => by have := hcalls.2 h; omega⟩
  refine ⟨hfalse, hloop, ?_, ?_⟩
  · rw [hstep]
    cases err with
    | some err => simp
    | none =>
      simp only
      cases hm : cc.mkTxResult R resTx with
      | ret pair => simp
      | panicked => simp
      | outOfFuel => exact absurd hm (hmk resTx)
  · intro pair calls hret
    rw [hstep] at hret
    cases err with
    | some err =>
      simp only [Outcome.ret.injEq, Prod.mk.injEq] at hret
      rw [← hret.2]
      exact hc2
    | none =>
      simp only at hret
      cases hm : cc.mkTxResult R resTx with
      | ret pair2 =>
        rw [hm] at hret
        simp only [Outcome.ret.injEq, Prod.mk.injEq] at hret
        rw [← hret.2]
        exact hc2
      | panicked => rw [hm] at hret; cases hret
      | outOfFuel => rw [hm] at hret; cases hret

/-- A witness of C6 as amended: the first listing of a node whose listings
fail. -/
theorem BroadcastTx_failed_listing_ends_wait_witness :
    (unlistableClient [171, 193, 35] 0).TxInMempool asciiPlatform 0
        (TxResponse.TxHash { Code := 0, TxHash := "ABC123" }) = Outcome.ret false ∧
    mempoolLoop asciiPlatform (unlistableClient [171, 193, 35] 0) background
        (TxResponse.TxHash { Code := 0, TxHash := "ABC123" }) 10 {} =
      Outcome.ret (true, { listings := 0 + 1, lookups := 0, selects := 0 + 1 }) ∧
    (unlistableClient [171, 193, 35] 0).BroadcastTx asciiPlatform someTime background 10
        [171, 193, 35] ≠ Outcome.outOfFuel ∧
    (∀ pair calls, (unlistableClient [171, 193, 35] 0).BroadcastTx asciiPlatform someTime
        background 10 [171, 193, 35] = Outcome.ret (pair, calls) →
      calls.listings = 0 + 1 ∧ (background.done (0 + 1) = false → 1 ≤ calls.lookups)) :=
  BroadcastTx_failed_listing_ends_wait asciiPlatform someTime (unlistableClient [171, 193, 35] 0)
    background [171, 193, 35] { Code := 0, TxHash := "ABC123" } 0 10
    ⟨ErrKind.transport, "connection reset"⟩ (by decide) rfl (by decide) rfl rfl (by decide)

/-- The counterexample to C6 as stated: the only listing request fails, and
the wait ends at once: `BroadcastTx` goes on to the lookup and returns the
final result after one listing call and one lookup call. -/
theorem BroadcastTx_failed_listing_reaches_lookup :
    (unlistableClient [171, 193, 35] 0).RPCClient.UnconfirmedTxs 0 1000 =
      (none, some ⟨ErrKind.transport, "connection reset"⟩) ∧
    (unlistableClient [171, 193, 35] 0).BroadcastTx asciiPlatform someTime background 10
        [171, 193, 35] =
      Outcome.ret ((some { Height := 42, TxHash := "ABC123", Tx := some [171, 193, 35],
                           Timestamp := "2021-11-04T12:00:00Z" }, none),
        { listings := 1, lookups := 1, selects := 1 }) := by
  decide


/-! ## Membership in the mempool -/

/-- C7: for every target hash string and every successful listing (requested
with limit 1000), `TxInMempool` returns true exactly when the upper-case
hexadecimal content hash of some listed entry equals the target under
`strings.EqualFold`, and false otherwise; for a target of ASCII runes this is
equality of the two strings once their letters are lower-cased.  The answer
does not change when the letters of the target are upper-cased or lower-cased,
and the hash string computed for bytes `X` is matched whenever `X` is listed. -/
theorem TxInMempool_iff (P : Platform) (cc : ChainClient) (i : Nat) (target : String)
    (res : ResultUnconfirmedTxs)
    (hl : cc.RPCClient.UnconfirmedTxs i 1000 = (some res, none)) :
    (cc.TxInMempool P i target = Outcome.ret true ↔
      ∃ txbz ∈ res.Txs, strings.EqualFold P target (sprintfX (Tx.Hash P txbz)) = true) ∧
    (cc.TxInMempool P i target = Outcome.ret false ↔
      ∀ txbz ∈ res.Txs, strings.EqualFold P target (sprintfX (Tx.Hash P txbz)) = false) ∧
    ((∀ c ∈ target.data, c.toNat < 128) →
      (cc.TxInMempool P i target = Outcome.ret true ↔
        ∃ txbz ∈ res.Txs, asciiLower target = asciiLower (sprintfX (Tx.Hash P txbz)))) ∧
    cc.TxInMempool P i (asciiUpper target) = cc.TxInMempool P i target ∧
    cc.TxInMempool P i (asciiLower target) = cc.TxInMempool P i target ∧
    (∀ X ∈ res.Txs, cc.TxInMempool P i (sprintfX (Tx.Hash P X)) = Outcome.ret true) := by
  have hiff := txsLoop_iff P target res.Txs
  refine ⟨?_, ?_, ?_, ?_, ?_, ?_⟩
  · rw [TxInMempool_listed P cc i target res hl]
    simp only [Outcome.ret.injEq]
    exact hiff
  · rw [TxInMempool_listed P cc i target res hl]
    simp only [Outcome.ret.injEq]
    rw [← Bool.not_eq_true, hiff]
    simp
  · intro hascii
    rw [TxInMempool_listed P cc i target res hl]
    simp only [Outcome.ret.injEq]
    rw [hiff]
    constructor
    · rintro ⟨t, ht, h⟩
      exact ⟨t, ht, (EqualFold_ascii P target _ hascii).1 h⟩
    · rintro ⟨t, ht, h⟩
      exact ⟨t, ht, (EqualFold_ascii P target _ hascii).2 h⟩
  · rw [TxInMempool_listed P cc i _ res hl, TxInMempool_listed P cc i _ res hl,
      txsLoop_congr P _ target res.Txs (EqualFold_asciiUpper P target)]
  · rw [TxInMempool_listed P cc i _ res hl, TxInMempool_listed P cc i _ res hl,
      txsLoop_congr P _ target res.Txs (EqualFold_asciiLower P target)]
  · intro X hX
    rw [TxInMempool_listed P cc i _ res hl]
    simp only [Outcome.ret.injEq]
    rw [txsLoop_iff]
    exact ⟨X, hX, EqualFold_refl P _⟩

/-- A witness of C7: a lower-case target against a listing of two entries. -/
theorem TxInMempool_iff_witness :
    ((scriptedClient [171, 193, 35] 3 0).TxInMempool asciiPlatform 0 "abc123" =
        Outcome.ret true ↔
      ∃ txbz ∈ (ResultUnconfirmedTxs.mk [[7], [171, 193, 35]]).Txs,
        strings.EqualFold asciiPlatform "abc123" (sprintfX (Tx.Hash asciiPlatform txbz)) = true) ∧
    ((scriptedClient [171, 193, 35] 3 0).TxInMempool asciiPlatform 0 "abc123" =
        Outcome.ret false ↔
      ∀ txbz ∈ (ResultUnconfirmedTxs.mk [[7], [171, 193, 35]]).Txs,
        strings.EqualFold asciiPlatform "abc123" (sprintfX (Tx.Hash asciiPlatform txbz)) = false) ∧
    ((∀ c ∈ ("abc123" : String).data, c.toNat < 128) →
      ((scriptedClient [171, 193, 35] 3 0).TxInMempool asciiPlatform 0 "abc123" =
          Outcome.ret true ↔
        ∃ txbz ∈ (ResultUnconfirmedTxs.mk [[7], [171, 193, 35]]).Txs,
          asciiLower "abc123" = asciiLower (sprintfX (Tx.Hash asciiPlatform txbz)))) ∧
    (scriptedClient [171, 193, 35] 3 0).TxInMempool asciiPlatform 0 (asciiUpper "abc123") =
      (scriptedClient [171, 193, 35] 3 0).TxInMempool asciiPlatform 0 "abc123" ∧
    (scriptedClient [171, 193, 35] 3 0).TxInMempool asciiPlatform 0 (asciiLower "abc123") =
      (scriptedClient [171, 193, 35] 3 0).TxInMempool asciiPlatform 0 "abc123" ∧
    (∀ X ∈ (ResultUnconfirmedTxs.mk [[7], [171, 193, 35]]).Txs,
      (scriptedClient [171, 193, 35] 3 0).TxInMempool asciiPlatform 0
        (sprintfX (Tx.Hash asciiPlatform X)) = Outcome.ret true) :=
  TxInMempool_iff asciiPlatform (scriptedClient [171, 193, 35] 3 0) 0 "abc123"
    ⟨[[7], [171, 193, 35]]⟩ rfl

/-! ## End to end -/

/-- C8 (as amended): for every `n`, if the broadcast of the bytes `X` returns
code 0 with the hash string `H`, valid hexadecimal for the bytes `txid`; the
listing reports `H` present at the first `n` polls and absent at the next; the
lookup of `H` returns a record whose hash field is `H` (the bytes `txid`), with
transaction bytes `X` and result code 0; decoding `X` yields
an envelope that packs into `D`; and cancellation never fires; then `BroadcastTx`
returns, with enough fuel for the `n + 1` polls, a nil error and a response with
code 0, hash `H` and packed envelope `D`, after exactly `n + 1` listing calls
and one lookup. -/
theorem BroadcastTx_end_to_end (P : Platform) (R : Runtime) (cc : ChainClient) (ctx : Context)
    (X : Bytes) (r : TxResponse) (H : String) (txid : Bytes) (rec : ResultTx) (D : Bytes)
    (n fuel : Nat)
    (hb : cc.BroadcastTxSync P X = (some r, none)) (hcode : r.Code = 0) (hH : r.TxHash = H)
    (hhex : hex.DecodeString H = Except.ok txid)
    (hpresent : ∀ i < n, ∃ l, cc.RPCClient.UnconfirmedTxs i 1000 = (some l, none) ∧
      ∃ e ∈ l.Txs, strings.EqualFold P H (sprintfX (Tx.Hash P e)) = true)
    (habsent : ∃ l, cc.RPCClient.UnconfirmedTxs n 1000 = (some l, none) ∧
      ∀ e ∈ l.Txs, strings.EqualFold P H (sprintfX (Tx.Hash P e)) = false)
    (hlookup : cc.RPCClient.Tx 0 txid false = (some rec, none))
    (hrec : rec.Hash = txid ∧ rec.Tx = X ∧ rec.TxResult.Code = 0)
    (hdec : cc.Codec.TxDecoder X = (some ⟨some (some D)⟩, none))
    (hctx : ∀ k, ctx.done k = false) (hfuel : n < fuel) :
    ∃ res : TxResponse,
      cc.BroadcastTx P R ctx fuel X =
        Outcome.ret ((some res, none), { listings := n + 1, lookups := 1, selects := n + 1 }) ∧
      res.Code = 0 ∧ res.TxHash = H ∧ res.Tx = some D := by
  subst hH
  obtain ⟨m, rfl⟩ : ∃ m, fuel = n + (m + 1) := ⟨fuel - n - 1, by omega⟩
  obtain ⟨rb, _, hr⟩ := BroadcastTxSync_accepted P cc X r hb hcode
  have hhash : r.TxHash = sprintfX rb.Hash := by rw [hr]
  have htxid : txid = rb.Hash := by
    rw [hhash, DecodeString_sprintfX] at hhex
    exact (Except.ok.inj hhex).symm
  have hloop : mempoolLoop P cc ctx r.TxHash (n + (m + 1)) {} =
      Outcome.ret (true, ⟨n + 1, 0, n + 1⟩) := by
    rw [mempoolLoop_present P cc ctx r.TxHash n (m + 1) {}]
    · obtain ⟨l, hl, hno⟩ := habsent
      rw [mempoolLoop_exit P cc ctx r.TxHash m _ (hctx _)]
      · simp
      · simp only [Nat.zero_add]
        rw [TxInMempool_listed P cc n _ l hl]
        congr 1
        rw [← Bool.not_eq_true, txsLoop_iff]
        rintro ⟨e, he, h⟩
        rw [hno e he] at h
        cases h
    · intro i hi
      obtain ⟨l, hl, hyes⟩ := hpresent i hi
      refine ⟨hctx _, ?_⟩
      simp only [Nat.zero_add]
      rw [TxInMempool_listed P cc i _ l hl]
      congr 1
      exact (txsLoop_iff P _ _).2 hyes
  have hretry : retry.Do cc ctx txid retry.DefaultAttempts [] none ⟨n + 1, 0, n + 1⟩ =
      (some rec, none, ⟨n + 1, 1, n + 1⟩) :=
    retryDo_transient cc ctx txid rec 0 retry.DefaultAttempts [] none ⟨n + 1, 0, n + 1⟩
      (hctx _) (by decide) (fun i hi => absurd hi (Nat.not_lt_zero i)) hlookup
      (fun i hi => absurd hi (Nat.not_lt_zero i))
  rw [BroadcastTx_after_wait P R cc ctx _ X r _ _ txid (some rec) hb hcode hloop hhex hretry]
  obtain ⟨h1, h2, h3⟩ := hrec
  refine ⟨{ TxHash := sprintfX rec.Hash, Height := rec.Height,
             Codespace := rec.TxResult.Codespace, Code := rec.TxResult.Code,
             Data := sprintfX rec.TxResult.Data, RawLog := rec.TxResult.Log,
             Info := rec.TxResult.Info, GasWanted := rec.TxResult.GasWanted,
             GasUsed := rec.TxResult.GasUsed, Tx := some D, Timestamp := R.now },
    ?_, ?_, ?_, ?_⟩
  · simp only [ChainClient.mkTxResult, h2, hdec, NewResponseResultTx]
  · exact h3
  · simp only [h1, htxid, hhash]
  · rfl

/-- A witness of C8, the scenario of the specification: the bytes hash to
"ABC123", are listed at three polls and then found. -/
theorem BroadcastTx_end_to_end_witness :
    ∃ res : TxResponse,
      (scriptedClient [171, 193, 35] 3 0).BroadcastTx asciiPlatform someTime background 10
          [171, 193, 35] =
        Outcome.ret ((some res, none), { listings := 3 + 1, lookups := 1, selects := 3 + 1 }) ∧
      res.Code = 0 ∧ res.TxHash = "ABC123" ∧ res.Tx = some [171, 193, 35] :=
  BroadcastTx_end_to_end asciiPlatform someTime (scriptedClient [171, 193, 35] 3 0) background
    [171, 193, 35] { Code := 0, TxHash := "ABC123" } "ABC123" [171, 193, 35]
    { Hash := [171, 193, 35], Height := 42, Tx := [171, 193, 35] } [171, 193, 35] 3 10
    (by decide) rfl rfl rfl
    (fun i hi => ⟨⟨[[7], [171, 193, 35]]⟩, by simp [scriptedClient, hi],
      [171, 193, 35], by simp, by decide⟩)
    ⟨⟨[[7]]⟩, by simp [scriptedClient], by decide⟩
    rfl ⟨rfl, rfl, rfl⟩ rfl (fun _ => rfl) (by decide)

/-- The counterexample to C8 as stated: the broadcast of `X` returns code 0
with the hash "ABC123", the listing reports it present at three polls and
absent at the next, the lookup for "ABC123" returns a record with transaction
bytes `X` and result code 0, the envelope decodes and cancellation never
fires; but the record carries the hash field 00, and the response of
`BroadcastTx` has the hash "00" of the record, not "ABC123". -/
theorem BroadcastTx_hash_from_record :
    (misfilingClient [171, 193, 35] 3).BroadcastTxSync asciiPlatform [171, 193, 35] =
      (some { Code := 0, TxHash := "ABC123" }, none) ∧
    hex.DecodeString "ABC123" = Except.ok [171, 193, 35] ∧
    (∀ i < 3, (misfilingClient [171, 193, 35] 3).TxInMempool asciiPlatform i "ABC123" =
      Outcome.ret true) ∧
    (misfilingClient [171, 193, 35] 3).TxInMempool asciiPlatform 3 "ABC123" =
      Outcome.ret false ∧
    (misfilingClient [171, 193, 35] 3).RPCClient.Tx 0 [171, 193, 35] false =
      (some { Hash := [0], Height := 42, Tx := [171, 193, 35],
              TxResult := { Code := 0 } }, none) ∧
    (misfilingClient [171, 193, 35] 3).Codec.TxDecoder [171, 193, 35] =
      (some ⟨some (some [171, 193, 35])⟩, none) ∧
    (misfilingClient [171, 193, 35] 3).BroadcastTx asciiPlatform someTime background 10
        [171, 193, 35] =
      Outcome.ret ((some { Code := 0, Height := 42, TxHash := "00",
                           Tx := some [171, 193, 35],
                           Timestamp := "2021-11-04T12:00:00Z" }, none),
        { listings := 4, lookups := 1, selects := 4 }) ∧
    ("00" : String) ≠ "ABC123" :=
  ⟨by decide, rfl, by decide, by decide, rfl, rfl, by decide, by decide⟩

/-! ## The confirmation fetch -/

/-- C9 (as amended): in the confirmation fetch a failed lookup is transient as
long as attempts are left: for every `k` below the attempt limit of `retry.Do`
(10), if the lookup fails `k` times and then succeeds and cancellation has not
fired, the fetch returns the succeeding record with a nil error after `k + 1`
lookups, and `BroadcastTx` returns the result built from that record, so no
error of the earlier failures reaches the caller. -/
theorem BroadcastTx_lookup_transient (P : Platform) (R : Runtime) (cc : ChainClient)
    (ctx : Context) (fuel : Nat) (tx : Bytes) (r : TxResponse) (txid : Bytes) (c : Calls)
    (rec : ResultTx) (k : Nat)
    (hb : cc.BroadcastTxSync P tx = (some r, none)) (hcode : r.Code = 0)
    (hwait : mempoolLoop P cc ctx r.TxHash fuel {} = Outcome.ret (true, c))
    (hhex : hex.DecodeString r.TxHash = Except.ok txid)
    (hk : k < retry.DefaultAttempts)
    (hfail : ∀ i < k, (cc.RPCClient.Tx (c.lookups + i) txid false).2 ≠ none)
    (hok : cc.RPCClient.Tx (c.lookups + k) txid false = (some rec, none))
    (hctx : ∀ j, ctx.done j = false) :
    retry.Do cc ctx txid retry.DefaultAttempts [] none c =
      (some rec, none, { listings := c.listings, lookups := c.lookups + k + 1,
                         selects := c.selects + k }) ∧
    ∃ pair, cc.mkTxResult R (some rec) = Outcome.ret pair ∧
      cc.BroadcastTx P R ctx fuel tx =
        Outcome.ret (pair, { listings := c.listings, lookups := c.lookups + k + 1,
                             selects := c.selects + k }) := by
  have hretry := retryDo_transient cc ctx txid rec k retry.DefaultAttempts [] none c (hctx _)
    hk hfail hok (fun i _ => hctx _)
  refine ⟨hretry, ?_⟩
  rw [BroadcastTx_after_wait P R cc ctx fuel tx r c _ txid (some rec) hb hcode hwait hhex hretry]
  cases hm : cc.mkTxResult R (some rec) with
  | ret pair => exact ⟨pair, rfl, rfl⟩
  | panicked =>
    exfalso
    simp only [ChainClient.mkTxResult] at hm
    split at hm <;> first | cases hm | (split at hm <;> cases hm)
  | outOfFuel =>
    exfalso
    simp only [ChainClient.mkTxResult] at hm
    split at hm <;> first | cases hm | (split at hm <;> cases hm)

/-- A witness of C9 as amended, the scenario of the specification: the lookup
fails twice and then succeeds. -/
theorem BroadcastTx_lookup_transient_witness :
    retry.Do (scriptedClient [171, 193, 35] 3 2) background [171, 193, 35]
        retry.DefaultAttempts [] none (Calls.mk 4 0 4) =
      (some { Hash := [171, 193, 35], Height := 42, Tx := [171, 193, 35] }, none,
        { listings := (Calls.mk 4 0 4).listings, lookups := (Calls.mk 4 0 4).lookups + 2 + 1,
          selects := (Calls.mk 4 0 4).selects + 2 }) ∧
    ∃ pair, (scriptedClient [171, 193, 35] 3 2).mkTxResult someTime
        (some { Hash := [171, 193, 35], Height := 42, Tx := [171, 193, 35] }) =
        Outcome.ret pair ∧
      (scriptedClient [171, 193, 35] 3 2).BroadcastTx asciiPlatform someTime background 10
          [171, 193, 35] =
        Outcome.ret (pair, { listings := (Calls.mk 4 0 4).listings,
                             lookups := (Calls.mk 4 0 4).lookups + 2 + 1,
                             selects := (Calls.mk 4 0 4).selects + 2 }) :=
  BroadcastTx_lookup_transient asciiPlatform someTime (scriptedClient [171, 193, 35] 3 2)
    background 10 [171, 193, 35] { Code := 0, TxHash := "ABC123" } [171, 193, 35]
    (Calls.mk 4 0 4) { Hash := [171, 193, 35], Height := 42, Tx := [171, 193, 35] } 2
    (by decide) rfl (by decide) rfl (by decide) (by decide) (by decide) (fun _ => rfl)

set_option maxRecDepth 8000 in
/-- The counterexample to C9 as stated, with `k = 10`: the lookup fails ten
times and would succeed at the eleventh call, cancellation never fires, yet the
fetch stops after ten lookups with the error of `retry.Do` and no record, and
`BroadcastTx` returns that error to its caller. -/
theorem BroadcastTx_lookup_attempts_exhausted :
    (∀ i < 10, ((scriptedClient [171, 193, 35] 0 10).RPCClient.Tx i [171, 193, 35] false).2
      ≠ none) ∧
    (scriptedClient [171, 193, 35] 0 10).RPCClient.Tx 10 [171, 193, 35] false =
      (some { Hash := [171, 193, 35], Height := 42, Tx := [171, 193, 35] }, none) ∧
    retry.Do (scriptedClient [171, 193, 35] 0 10) background [171, 193, 35]
        retry.DefaultAttempts [] none (Calls.mk 1 0 1) =
      (none, some (retryError (List.replicate 10 ⟨ErrKind.transport, "tx not found"⟩)),
        Calls.mk 1 10 10) ∧
    (scriptedClient [171, 193, 35] 0 10).BroadcastTx asciiPlatform someTime background 10
        [171, 193, 35] =
      Outcome.ret ((some { Code := 0, TxHash := "ABC123" },
        some (retryError (List.replicate 10 ⟨ErrKind.transport, "tx not found"⟩))),
        Calls.mk 1 10 10) := by
  refine ⟨by decide, by decide, by rfl, by rfl⟩


end Lens
